import Mathlib

/-!
Shallow embedding of the `callcache` Go package (callcache.go).

The package provides a per-key call-deduplication cache.  A `Dispatcher`
owns a map from string keys to per-key `call` entries; each `call` keeps a
cached result, the `UnixNano` timestamp of its last successful update, and
the two configured durations (`expiration`, `updateInterval`, both in
nanoseconds).

Modelling choices:
- Go `interface{}` values are modelled as `Option Int`, with `Option.none`
  standing for Go's nil interface (the zero value of the `result` field).
- Go `error` values are modelled as `Option String`, with `Option.none`
  standing for a nil error.
- `time.Now().UnixNano()` readings are passed in as explicit `Int`
  parameters.  Go stores them in `int64`; the claims concern timestamp
  magnitudes far below the overflow range, so unbounded `Int` is used and
  `now - lastUpdate` is ordinary integer subtraction, as in the source.
- The caller-supplied operation `fn : func() (interface{}, error)` is pure
  from the cache's point of view: it is modelled by the result pair it
  would produce when invoked.
- The Go map `map[string]*call` is modelled as an association list; the
  in-place mutation of a `*call` through its pointer becomes replacing the
  binding for the key.
-/

namespace Callcache

/-- A Go `interface\x7b\x7d` value; `Option.none` is the nil interface. -/
abbrev Value := Option Int

/-- A Go `error` value; `Option.none` is the nil error. -/
abbrev Err := Option String

/-- A `(value, error)` pair, as returned by the caller-supplied operation
and by `Do`. -/
abbrev GoResult := Value × Err

/-- The per-key `call` struct of callcache.go (lines 50-57): configured
`expiration` and `updateInterval` in nanoseconds, the cached `result`
(zero value: nil) and the `lastUpdate` UnixNano timestamp (zero value: 0,
meaning never populated).  The `sync.RWMutex` and the `singleflight.Group`
are coordination devices, not data, and are modelled at the points where
they matter (sequential access here; the dedup collapse in
`singleflightUpdate` below). -/
structure Call where
  expiration : Int
  updateInterval : Int
  result : Value
  lastUpdate : Int
deriving DecidableEq

/-- The closure handed to `c.group.Do("update", ...)` inside `call.update`
(callcache.go lines 77-91), executed once per singleflight flight at
re-read time `now` with the operation producing `op`: it re-checks
freshness against the current `lastUpdate`; if still fresh it returns the
previous result with nil error, otherwise it runs the operation and, on
success only, stores the new value together with `lastUpdate = now`.
Returns the `(value, error)` pair and the post-state of the entry. -/
def Call.updateBody (c : Call) (now : Int) (op : GoResult) : GoResult × Call :=
  let t := now - c.lastUpdate
  if t < c.expiration ∧ (c.updateInterval = 0 ∨ t < c.updateInterval) then
    ((c.result, Option.none), c)
  else if op.2 = Option.none then
    (op, { c with result := op.1, lastUpdate := now })
  else
    (op, c)

/-- Whether the closure inside `call.update` actually invokes the
caller-supplied operation at re-read time `now`: true exactly when the
inner freshness re-check (callcache.go line 79) fails. -/
def Call.updateCallsOp (c : Call) (now : Int) : Bool :=
  ¬ (now - c.lastUpdate < c.expiration ∧
      (c.updateInterval = 0 ∨ now - c.lastUpdate < c.updateInterval))

/-- `call.update` (callcache.go lines 76-93) as seen by a single caller:
`group.Do` runs the closure and hands back its `(value, error)` pair.
The multi-caller dedup behaviour is modelled by `singleflightUpdate`. -/
def Call.update (c : Call) (now : Int) (op : GoResult) : GoResult × Call :=
  c.updateBody now op

/-- Which of the three branches of `call.do` a call took. -/
inductive DoAction where
  /-- `t > expiration`: synchronous recompute through `call.update`. -/
  | syncUpdate : DoAction
  /-- `updateInterval > 0 && t > updateInterval`: `go c.update(fn)` is
  launched and the snapshotted cache is returned. -/
  | backgroundRefresh : DoAction
  /-- Neither threshold crossed: the snapshotted cache is returned. -/
  | serveCache : DoAction
deriving DecidableEq

/-- The outcome of one `call.do` invocation: the `(value, error)` pair
returned to the caller, the state of the entry as mutated synchronously by
this caller (a background refresh runs detached and is applied separately
via `Call.update`), and the branch taken. -/
structure DoOutcome where
  ret : GoResult
  post : Call
  act : DoAction
deriving DecidableEq

/-- `call.do` (callcache.go lines 59-74).  `now` is the timestamp read at
entry; `nowU` is the timestamp re-read inside the update closure when the
synchronous update path is taken.  It snapshots the cached value, computes
`t = now - lastUpdate`, and either recomputes synchronously
(`t > expiration`), serves the snapshot while launching a detached
background update (`updateInterval > 0 && t > updateInterval`), or just
serves the snapshot. -/
def Call.doCall (c : Call) (now nowU : Int) (op : GoResult) : DoOutcome :=
  let v := c.result
  let t := now - c.lastUpdate
  if t > c.expiration then
    ⟨(c.update nowU op).1, (c.update nowU op).2, DoAction.syncUpdate⟩
  else if c.updateInterval > 0 ∧ t > c.updateInterval then
    ⟨(v, Option.none), c, DoAction.backgroundRefresh⟩
  else
    ⟨(v, Option.none), c, DoAction.serveCache⟩

/-! ### The singleflight dedup collapse

`call.update` channels every recompute through
`c.group.Do("update", closure)` where `group` is a
`golang.org/x/sync/singleflight.Group` — an external dependency whose
source is not part of this repository.  Its contract, as restated by the
spec's dedup description, is that all callers whose `group.Do` overlap on
the same (here constant) key collapse into one execution of the first
caller's closure and every one of them receives that single execution's
`(value, error)` pair. -/

/-- Modelled from the spec: the dedup collapse performed by
`singleflight.Group.Do` (dependency `golang.org/x/sync/singleflight`,
not under this repository's sources) applied to `call.update`.  `ops`
lists the operation results supplied by the N concurrent callers, in
arrival order.  The first caller's closure runs once at re-read time
`now`; the model returns the pair handed to each caller (all the shared
pair), the list of operations actually executed, and the post-state. -/
def singleflightUpdate (c : Call) (now : Int) (ops : List GoResult) :
    List GoResult × List GoResult × Call :=
  match ops with
  | [] => ([], [], c)
  | op :: _ =>
    let executed := if c.updateCallsOp now then [op] else []
    (List.replicate ops.length (c.updateBody now op).1, executed,
      (c.updateBody now op).2)

/-! ### The Dispatcher -/

/-- The `Dispatcher` struct (callcache.go lines 12-17): the configured
durations in nanoseconds and the key-to-entry map, modelled as an
association list (at most one binding per key, maintained by the
operations below). -/
structure Dispatcher where
  expiration : Int
  updateInterval : Int
  calls : List (String × Call)
deriving DecidableEq

/-- `NewDispatcher` (callcache.go lines 23-29): stores the two durations
as nanosecond counts and starts with an empty map. -/
def NewDispatcher (expiration updateInterval : Int) : Dispatcher :=
  { expiration := expiration, updateInterval := updateInterval, calls := [] }

/-- Lookup in the key-to-entry map: `d.calls[key]`, `Option.none` playing
the role of Go's nil `*call`. -/
def findCall : List (String × Call) → String → Option Call
  | [], _ => Option.none
  | (k, c) :: rest, key => if k = key then some c else findCall rest key

/-- Replace the binding of `key` (the Go code mutates the `*call` in
place through its pointer; the map keeps pointing at it). -/
def setCall : List (String × Call) → String → Call → List (String × Call)
  | [], _, _ => []
  | (k, c) :: rest, key, c2 =>
    if k = key then (k, c2) :: rest else (k, c) :: setCall rest key c2

/-- `delete(d.calls, key)`: remove every binding of `key` (Go map delete;
with the one-binding-per-key invariant, at most one). -/
def removeCall : List (String × Call) → String → List (String × Call)
  | [], _ => []
  | (k, c) :: rest, key =>
    if k = key then removeCall rest key else (k, c) :: removeCall rest key

/-- The fresh entry `Dispatcher.Do` inserts for an unseen key
(callcache.go line 36): `&call{expiration: ..., updateInterval: ...}`,
whose `result` and `lastUpdate` fields take their zero values (nil, 0). -/
def Dispatcher.newCall (d : Dispatcher) : Call :=
  { expiration := d.expiration, updateInterval := d.updateInterval,
    result := Option.none, lastUpdate := 0 }

/-- The locked prologue of `Dispatcher.Do` (callcache.go lines 34-38):
under `d.mu`, if `d.calls[key]` is nil, insert a fresh entry carrying the
dispatcher's durations, nil result and `lastUpdate = 0`. -/
def Dispatcher.ensure (d : Dispatcher) (key : String) : Dispatcher :=
  match findCall d.calls key with
  | some _ => d
  | Option.none => { d with calls := (key, d.newCall) :: d.calls }

/-- The unlocked tail of `Dispatcher.Do` (callcache.go line 40):
`return d.calls[key].do(fn)` re-reads the map after `d.mu` was released.
If the binding has vanished (a concurrent `Remove` won the race), the Go
expression evaluates `do` on a nil `*call` and panics on the first field
access; that crash is modelled as `Option.none`. -/
def Dispatcher.dispatch (d : Dispatcher) (key : String) (now nowU : Int)
    (op : GoResult) : Option (DoOutcome × Dispatcher) :=
  match findCall d.calls key with
  | Option.none => Option.none
  | some c =>
    let o := c.doCall now nowU op
    some (o, { d with calls := setCall d.calls key o.post })

/-- `Dispatcher.Do` (callcache.go lines 33-41) executed without
interference between its locked prologue and its unlocked tail. -/
def Dispatcher.Do (d : Dispatcher) (key : String) (now nowU : Int)
    (op : GoResult) : Option (DoOutcome × Dispatcher) :=
  (d.ensure key).dispatch key now nowU op

/-- `Dispatcher.Remove` (callcache.go lines 44-48): delete the key's
entry under `d.mu`. -/
def Dispatcher.Remove (d : Dispatcher) (key : String) : Dispatcher :=
  { d with calls := removeCall d.calls key }

/-! ### Helper lemmas -/

theorem updateCallsOp_of_expired (c : Call) (now : Int)
    (h : now - c.lastUpdate > c.expiration) : c.updateCallsOp now = true := by
  simp only [Call.updateCallsOp, decide_eq_true_eq]
  intro hcon
  exact lt_asymm h hcon.1

theorem updateBody_of_stale (c : Call) (now : Int) (op : GoResult)
    (h : c.updateCallsOp now = true) :
    c.updateBody now op =
      if op.2 = Option.none then
        (op, { c with result := op.1, lastUpdate := now })
      else (op, c) := by
  simp only [Call.updateCallsOp, decide_eq_true_eq] at h
  simp only [Call.updateBody]
  rw [if_neg h]

/-! ### Claim theorems: the update path -/

/-- C4: inside the dedup-guarded update path, the freshness re-check at the
freshly read `now` against the current `lastUpdate` skips the operation and
returns the current cached value with nil error whenever the entry is below
the expiration threshold and, when `updateInterval > 0`, also below the
refresh-interval threshold. -/
theorem update_recheck_skips_when_fresh (c : Call) (now : Int) (op : GoResult)
    (hexp : now - c.lastUpdate < c.expiration)
    (hint : c.updateInterval = 0 ∨ now - c.lastUpdate < c.updateInterval) :
    c.update now op = ((c.result, Option.none), c) ∧
    c.updateCallsOp now = false := by
  constructor
  · simp only [Call.update, Call.updateBody]
    rw [if_pos ⟨hexp, hint⟩]
  · simp only [Call.updateCallsOp, decide_eq_false_iff_not, not_not]
    exact ⟨hexp, hint⟩

theorem update_recheck_skips_when_fresh_witness :
    Call.update ⟨100, 0, some 5, 40⟩ 50 (some 9, Option.none) =
      ((some 5, Option.none), ⟨100, 0, some 5, 40⟩) ∧
    Call.updateCallsOp ⟨100, 0, some 5, 40⟩ 50 = false :=
  update_recheck_skips_when_fresh ⟨100, 0, some 5, 40⟩ 50 (some 9, Option.none)
    (by decide) (by decide)

/-- C7: a successful recompute in the update path stores the new value and
`lastUpdate` together, with `lastUpdate` equal to the `now` read at entry to
the update execution (before the operation ran); hence the stored
`lastUpdate` is no later than any instant at or after the entry time, in
particular no later than the time the operation finished. -/
theorem update_success_stores_entry_now (c : Call) (now : Int) (v : Value)
    (hstale : c.updateCallsOp now = true) :
    c.update now (v, Option.none) =
      ((v, Option.none), { c with result := v, lastUpdate := now }) ∧
    ∀ tFinish : Int, now ≤ tFinish →
      ((c.update now (v, Option.none)).2).lastUpdate ≤ tFinish := by
  have hb : c.update now (v, Option.none) =
      ((v, Option.none), { c with result := v, lastUpdate := now }) := by
    show c.updateBody now (v, Option.none) = _
    rw [updateBody_of_stale c now (v, Option.none) hstale]
    simp
  refine ⟨hb, fun tFinish ht => ?_⟩
  rw [hb]
  exact ht

theorem update_success_stores_entry_now_witness :
    Call.update ⟨100, 0, some 5, 0⟩ 200 (some 7, Option.none) =
      ((some 7, Option.none), ⟨100, 0, some 7, 200⟩) :=
  (update_success_stores_entry_now ⟨100, 0, some 5, 0⟩ 200 (some 7) (by decide)).1

/-- C3: if the operation runs in the update path and fails, the entry's
`result` and `lastUpdate` are left completely unchanged and the failure is
returned to the synchronous caller; subsequent calls on the (unchanged)
entry still compute staleness from the old `lastUpdate`, taking the
synchronous-recompute branch when expired — in particular a never-populated
entry (`lastUpdate = 0`) is treated as expired whenever `now` exceeds
`expiration`. -/
theorem update_failure_leaves_entry_unchanged (c : Call) (now : Int)
    (v : Value) (e : String) (hran : c.updateCallsOp now = true) :
    c.update now (v, some e) = ((v, some e), c) ∧
    (∀ now2 nowU2 op2, now2 - c.lastUpdate > c.expiration →
      (c.doCall now2 nowU2 op2).act = DoAction.syncUpdate) ∧
    (c.lastUpdate = 0 → ∀ now2 nowU2 op2, now2 > c.expiration →
      (c.doCall now2 nowU2 op2).act = DoAction.syncUpdate) := by
  have hsync : ∀ now2 nowU2 op2, now2 - c.lastUpdate > c.expiration →
      (c.doCall now2 nowU2 op2).act = DoAction.syncUpdate := by
    intro now2 nowU2 op2 h2
    simp only [Call.doCall]
    rw [if_pos h2]
  refine ⟨?_, hsync, ?_⟩
  · show c.updateBody now (v, some e) = _
    rw [updateBody_of_stale c now (v, some e) hran]
    simp
  · intro h0 now2 nowU2 op2 h2
    exact hsync now2 nowU2 op2 (by rw [h0]; simpa using h2)

theorem update_failure_leaves_entry_unchanged_witness :
    Call.update ⟨100, 0, some 5, 0⟩ 200 (some 7, some "boom") =
      ((some 7, some "boom"), ⟨100, 0, some 5, 0⟩) :=
  (update_failure_leaves_entry_unchanged ⟨100, 0, some 5, 0⟩ 200 (some 7)
    "boom" (by decide)).1

/-- C10: when the update path runs the operation and the operation fails,
the `(value, error)` pair returned to the synchronous caller is exactly the
pair the operation returned — the value slot carries the operation's own
value (possibly non-nil), not the previously cached value. -/
theorem update_failure_returns_op_pair (c : Call) (now : Int) (v : Value)
    (e : String) (hran : c.updateCallsOp now = true) :
    (c.update now (v, some e)).1 = (v, some e) := by
  show (c.updateBody now (v, some e)).1 = _
  rw [updateBody_of_stale c now (v, some e) hran]
  simp

theorem update_failure_returns_op_pair_witness :
    (Call.update ⟨100, 0, some 5, 0⟩ 200 (some 7, some "boom")).1 =
      (some 7, some "boom") :=
  update_failure_returns_op_pair ⟨100, 0, some 5, 0⟩ 200 (some 7) "boom"
    (by decide)

/-- C1: `call.do` with `elapsed = now - lastUpdate`: if
`elapsed > expiration` it recomputes synchronously through the
dedup-guarded update path and returns that path's `(value, error)` pair;
else if `updateInterval > 0` and `elapsed > updateInterval` it returns the
snapshotted cached value immediately with nil error and launches a
background recompute whose outcome never reaches this caller (the returned
pair is independent of the operation's result); else it returns the cached
value with nil error and leaves the entry untouched. -/
theorem do_staleness_policy (c : Call) (now nowU : Int) (op op2 : GoResult) :
    (now - c.lastUpdate > c.expiration →
      c.doCall now nowU op =
        ⟨(c.update nowU op).1, (c.update nowU op).2, DoAction.syncUpdate⟩) ∧
    (¬ now - c.lastUpdate > c.expiration →
      c.updateInterval > 0 → now - c.lastUpdate > c.updateInterval →
      c.doCall now nowU op =
        ⟨(c.result, Option.none), c, DoAction.backgroundRefresh⟩ ∧
      (c.doCall now nowU op).ret = (c.doCall now nowU op2).ret) ∧
    (¬ now - c.lastUpdate > c.expiration →
      ¬ (c.updateInterval > 0 ∧ now - c.lastUpdate > c.updateInterval) →
      c.doCall now nowU op =
        ⟨(c.result, Option.none), c, DoAction.serveCache⟩) := by
  refine ⟨?_, ?_, ?_⟩
  · intro h1
    simp only [Call.doCall]
    rw [if_pos h1]
  · intro h1 h2 h3
    have hb : ∀ o : GoResult, c.doCall now nowU o =
        ⟨(c.result, Option.none), c, DoAction.backgroundRefresh⟩ := by
      intro o
      simp only [Call.doCall]
      rw [if_neg h1, if_pos ⟨h2, h3⟩]
    exact ⟨hb op, by rw [hb op, hb op2]⟩
  · intro h1 h2
    simp only [Call.doCall]
    rw [if_neg h1, if_neg h2]

theorem do_staleness_policy_witness :
    Call.doCall ⟨100, 10, some 1, 0⟩ 200 200 (some 2, Option.none) =
      ⟨(Call.update ⟨100, 10, some 1, 0⟩ 200 (some 2, Option.none)).1,
       (Call.update ⟨100, 10, some 1, 0⟩ 200 (some 2, Option.none)).2,
       DoAction.syncUpdate⟩ :=
  (do_staleness_policy ⟨100, 10, some 1, 0⟩ 200 200 (some 2, Option.none)
    (some 3, Option.none)).1 (by decide)

/-- C2: N concurrent callers of the dedup-guarded update path on one entry
whose cache is expired at the flight's re-read time collapse into exactly
one execution of the first caller's operation, and every caller receives
the identical `(value, error)` pair produced by that single execution. -/
theorem concurrent_expired_executes_once (c : Call) (now : Int)
    (ops : List GoResult) (hne : ops ≠ [])
    (hexp : now - c.lastUpdate > c.expiration) :
    (singleflightUpdate c now ops).2.1 = [ops.head hne] ∧
    (singleflightUpdate c now ops).1 =
      List.replicate ops.length ((c.updateBody now (ops.head hne)).1) ∧
    ∀ r ∈ (singleflightUpdate c now ops).1,
      r = (c.updateBody now (ops.head hne)).1 := by
  cases ops with
  | nil => exact absurd rfl hne
  | cons op rest =>
    have hcall := updateCallsOp_of_expired c now hexp
    refine ⟨?_, ?_, ?_⟩
    · simp only [singleflightUpdate, List.head_cons]
      rw [if_pos hcall]
    · simp only [singleflightUpdate, List.head_cons]
    · intro r hr
      simp only [singleflightUpdate, List.head_cons] at hr
      exact List.eq_of_mem_replicate hr

theorem concurrent_expired_executes_once_witness :
    (singleflightUpdate ⟨100, 0, some 5, 0⟩ 200
      [(some 7, Option.none), (some 8, Option.none), (some 9, Option.none)]).2.1 =
      [((some 7 : Value), (Option.none : Err))] :=
  (concurrent_expired_executes_once ⟨100, 0, some 5, 0⟩ 200
    [(some 7, Option.none), (some 8, Option.none), (some 9, Option.none)]
    (by decide) (by decide)).1

/-! ### Dispatcher-level helper lemmas -/

theorem removeCall_of_absent (m : List (String × Call)) (key : String)
    (h : findCall m key = Option.none) : removeCall m key = m := by
  induction m with
  | nil => rfl
  | cons p rest ih =>
    obtain ⟨k, c⟩ := p
    by_cases hk : k = key
    · simp only [findCall, if_pos hk] at h
      cases h
    · simp only [findCall, if_neg hk] at h
      simp only [removeCall, if_neg hk, ih h]

theorem findCall_removeCall (m : List (String × Call)) (key : String) :
    findCall (removeCall m key) key = Option.none := by
  induction m with
  | nil => rfl
  | cons p rest ih =>
    obtain ⟨k, c⟩ := p
    by_cases hk : k = key
    · simp only [removeCall, if_pos hk, ih]
    · simp only [removeCall, if_neg hk, findCall, ih]

theorem findCall_cons_self (key : String) (c : Call)
    (m : List (String × Call)) : findCall ((key, c) :: m) key = some c := by
  simp [findCall]

theorem setCall_cons_self (key : String) (c c2 : Call)
    (m : List (String × Call)) :
    setCall ((key, c) :: m) key c2 = (key, c2) :: m := by
  simp [setCall]

theorem ensure_absent (d : Dispatcher) (key : String)
    (h : findCall d.calls key = Option.none) :
    d.ensure key = { d with calls := (key, d.newCall) :: d.calls } := by
  unfold Dispatcher.ensure
  rw [h]

theorem dispatch_found (d : Dispatcher) (key : String) (c : Call)
    (h : findCall d.calls key = some c) (now nowU : Int) (op : GoResult) :
    d.dispatch key now nowU op =
      some (c.doCall now nowU op,
            { d with calls := setCall d.calls key (c.doCall now nowU op).post }) := by
  unfold Dispatcher.dispatch
  rw [h]

/-- `Dispatcher.Do` on a key with no entry: a fresh entry is inserted and
then invoked, and the map ends up binding the key to that entry's
post-state. -/
theorem Do_absent (d : Dispatcher) (key : String) (now nowU : Int)
    (op : GoResult) (habsent : findCall d.calls key = Option.none) :
    d.Do key now nowU op =
      some (d.newCall.doCall now nowU op,
            { d with
                calls := (key, (d.newCall.doCall now nowU op).post) :: d.calls }) := by
  show (d.ensure key).dispatch key now nowU op = _
  rw [ensure_absent d key habsent,
    dispatch_found _ key d.newCall (findCall_cons_self key d.newCall d.calls)
      now nowU op, setCall_cons_self]

/-! ### Claim theorems: the Dispatcher -/

/-- C5 counterexample: with `expiration = 100` ns and current time
`now = 50` ns, the first `Do` on the never-seen key `"k"` does **not**
execute the operation synchronously: `now - lastUpdate = 50 - 0` does not
exceed the expiration, so the fresh entry's nil cache is served
(`serveCache`, not `syncUpdate`) and `(nil, nil)` is returned — the first
call is *not* synchronous "regardless of the configured expiration and
regardless of the current time". -/
theorem first_do_not_always_sync :
    (NewDispatcher 100 0).Do "k" 50 50 (some 7, Option.none) =
      some (⟨(Option.none, Option.none), ⟨100, 0, Option.none, 0⟩,
             DoAction.serveCache⟩,
            ⟨100, 0, [("k", ⟨100, 0, Option.none, 0⟩)]⟩) ∧
    DoAction.serveCache ≠ DoAction.syncUpdate := by
  decide

/-- C5 (amended): for a key never seen before, `Do` inserts a fresh entry
with `lastUpdate = 0`, and — provided the current UnixNano `now` exceeds
the configured expiration, as holds for every realistic configuration —
the call takes the synchronous-recompute branch and its update path does
execute the supplied operation. -/
theorem first_do_executes_sync_when_expired (d : Dispatcher) (key : String)
    (now nowU : Int) (op : GoResult)
    (habsent : findCall d.calls key = Option.none)
    (hnow : now > d.expiration) (hle : now ≤ nowU) :
    d.newCall.lastUpdate = 0 ∧
    (d.newCall.doCall now nowU op).act = DoAction.syncUpdate ∧
    d.newCall.updateCallsOp nowU = true ∧
    d.Do key now nowU op =
      some (d.newCall.doCall now nowU op,
            { d with
                calls := (key, (d.newCall.doCall now nowU op).post) :: d.calls }) := by
  have hexp : now - d.newCall.lastUpdate > d.newCall.expiration := by
    simp only [Dispatcher.newCall, sub_zero]
    exact hnow
  refine ⟨rfl, ?_, ?_, Do_absent d key now nowU op habsent⟩
  · simp only [Call.doCall]
    rw [if_pos hexp]
  · exact updateCallsOp_of_expired d.newCall nowU
      (by simp only [Dispatcher.newCall, sub_zero]; exact lt_of_lt_of_le hnow hle)

theorem first_do_executes_sync_when_expired_witness :
    (NewDispatcher 100 0).newCall.lastUpdate = 0 ∧
    ((NewDispatcher 100 0).newCall.doCall 200 200 (some 7, Option.none)).act =
      DoAction.syncUpdate ∧
    (NewDispatcher 100 0).newCall.updateCallsOp 200 = true ∧
    (NewDispatcher 100 0).Do "k" 200 200 (some 7, Option.none) =
      some ((NewDispatcher 100 0).newCall.doCall 200 200 (some 7, Option.none),
            { NewDispatcher 100 0 with
                calls := [("k",
                  ((NewDispatcher 100 0).newCall.doCall 200 200
                    (some 7, Option.none)).post)] }) :=
  first_do_executes_sync_when_expired (NewDispatcher 100 0) "k" 200 200
    (some 7, Option.none) (by decide) (by decide) (by decide)

/-- C6 counterexample: with `expiration = 100` ns, an entry for `"k"` last
updated at time 40 is removed; the next `Do` at time 50 creates a fresh
entry but, since `50 - 0` does not exceed the expiration, serves its nil
cache without executing the operation — the post-removal call is *not*
synchronous "regardless of how recently the removed Entry was updated". -/
theorem remove_then_do_not_always_sync :
    (Dispatcher.Remove ⟨100, 0, [("k", ⟨100, 0, some 1, 40⟩)]⟩ "k").Do "k"
        50 50 (some 2, Option.none) =
      some (⟨(Option.none, Option.none), ⟨100, 0, Option.none, 0⟩,
             DoAction.serveCache⟩,
            ⟨100, 0, [("k", ⟨100, 0, Option.none, 0⟩)]⟩) ∧
    DoAction.serveCache ≠ DoAction.syncUpdate := by
  decide

/-- C6 (amended): `Remove key` deletes the key's entry if present and
leaves the dispatcher unchanged if absent; the next `Do` for that key
creates a brand-new entry with no memory of prior state (`lastUpdate = 0`,
nil result) and — provided the current UnixNano `now` exceeds the
configured expiration, as holds for every realistic configuration — takes
the synchronous-recompute branch, whose update path executes the
operation. -/
theorem remove_then_do_fresh_sync (d : Dispatcher) (key : String)
    (now nowU : Int) (op : GoResult)
    (hnow : now > d.expiration) (hle : now ≤ nowU) :
    (findCall d.calls key = Option.none → d.Remove key = d) ∧
    findCall (d.Remove key).calls key = Option.none ∧
    d.newCall.lastUpdate = 0 ∧ d.newCall.result = Option.none ∧
    ((d.Remove key).newCall.doCall now nowU op).act = DoAction.syncUpdate ∧
    (d.Remove key).newCall.updateCallsOp nowU = true ∧
    (d.Remove key).Do key now nowU op =
      some ((d.Remove key).newCall.doCall now nowU op,
            { d.Remove key with
                calls := (key, ((d.Remove key).newCall.doCall now nowU op).post)
                  :: (d.Remove key).calls }) := by
  have habsent : findCall (d.Remove key).calls key = Option.none :=
    findCall_removeCall d.calls key
  have hrest := first_do_executes_sync_when_expired (d.Remove key) key now nowU
    op habsent hnow hle
  refine ⟨?_, habsent, rfl, rfl, hrest.2.1, hrest.2.2.1, hrest.2.2.2⟩
  intro h
  show { d with calls := removeCall d.calls key } = d
  rw [removeCall_of_absent d.calls key h]

theorem remove_then_do_fresh_sync_witness :
    (findCall [("k", (⟨100, 0, some 1, 40⟩ : Call))] "j" = Option.none →
      Dispatcher.Remove ⟨100, 0, [("k", ⟨100, 0, some 1, 40⟩)]⟩ "j" =
        ⟨100, 0, [("k", ⟨100, 0, some 1, 40⟩)]⟩) ∧
    findCall (Dispatcher.Remove ⟨100, 0, [("k", ⟨100, 0, some 1, 40⟩)]⟩
      "j").calls "j" = Option.none ∧
    (Dispatcher.newCall ⟨100, 0, [("k", ⟨100, 0, some 1, 40⟩)]⟩).lastUpdate = 0 ∧
    (Dispatcher.newCall ⟨100, 0, [("k", ⟨100, 0, some 1, 40⟩)]⟩).result =
      Option.none ∧
    ((Dispatcher.Remove ⟨100, 0, [("k", ⟨100, 0, some 1, 40⟩)]⟩
      "j").newCall.doCall 200 200 (some 2, Option.none)).act =
      DoAction.syncUpdate ∧
    (Dispatcher.Remove ⟨100, 0, [("k", ⟨100, 0, some 1, 40⟩)]⟩
      "j").newCall.updateCallsOp 200 = true ∧
    (Dispatcher.Remove ⟨100, 0, [("k", ⟨100, 0, some 1, 40⟩)]⟩ "j").Do "j"
        200 200 (some 2, Option.none) =
      some ((Dispatcher.Remove ⟨100, 0, [("k", ⟨100, 0, some 1, 40⟩)]⟩
          "j").newCall.doCall 200 200 (some 2, Option.none),
        { Dispatcher.Remove ⟨100, 0, [("k", ⟨100, 0, some 1, 40⟩)]⟩ "j" with
            calls := ("j",
              ((Dispatcher.Remove ⟨100, 0, [("k", ⟨100, 0, some 1, 40⟩)]⟩
                "j").newCall.doCall 200 200 (some 2, Option.none)).post)
              :: (Dispatcher.Remove ⟨100, 0, [("k", ⟨100, 0, some 1, 40⟩)]⟩
                "j").calls }) :=
  remove_then_do_fresh_sync ⟨100, 0, [("k", ⟨100, 0, some 1, 40⟩)]⟩ "j" 200 200
    (some 2, Option.none) (by decide) (by decide)

/-- C8: `Dispatcher.Do` re-reads `d.calls[key]` *after* releasing `d.mu`
(callcache.go line 40), so a `Remove` interleaved between the locked
prologue and that re-read makes the lookup return Go's nil `*call`;
invoking `do` on it dereferences a nil pointer and panics.  The failing
interleaving, executed step by step: `Do`'s prologue inserts the entry for
`"k"`, `Remove "k"` deletes it, then `Do`'s unlocked tail finds no entry
(`findCall = none`) and the dispatch is the crash case (`Option.none`) —
a third behaviour beyond the two consistent outcomes the claim allows. -/
theorem do_remove_race_hits_nil_entry :
    findCall (((NewDispatcher 100 0).ensure "k").Remove "k").calls "k" =
      Option.none ∧
    (((NewDispatcher 100 0).ensure "k").Remove "k").dispatch "k" 50 50
      (some 7, Option.none) = Option.none := by
  decide

/-- C9 counterexample: `NewDispatcher 100 5` with current time `now = 100`
(so `expiration ≥ now`) on the never-populated key `"k"`: `Do` does return
`(nil, nil)`, but because `updateInterval = 5 < 100 = elapsed` it launches
a background refresh, and that refresh's guarded body, re-checking at time
100, *does* execute the operation (`updateCallsOp = true`) — contradicting
"does not call the operation at all". -/
theorem never_populated_background_still_runs :
    Option.map (fun p => p.1.act)
      ((NewDispatcher 100 5).Do "k" 100 100 (some 7, Option.none)) =
      some DoAction.backgroundRefresh ∧
    Option.map (fun p => p.1.ret)
      ((NewDispatcher 100 5).Do "k" 100 100 (some 7, Option.none)) =
      some (Option.none, Option.none) ∧
    Call.updateCallsOp ⟨100, 5, Option.none, 0⟩ 100 = true := by
  decide

/-- C9 (amended): staleness is measured against absolute UnixNano time
with `lastUpdate = 0` meaning never populated, so a never-populated key is
not distinguished from a very old update: when `expiration ≥ now`, `Do` on
such a key serves the nil zero value with nil error without any
synchronous recompute, and — provided the background-refresh trigger does
not fire (`updateInterval ≤ 0` or `now ≤ updateInterval`) — the operation
is not called at all (`serveCache`). -/
theorem never_populated_fresh_serves_nil (d : Dispatcher) (key : String)
    (now nowU : Int) (op : GoResult)
    (habsent : findCall d.calls key = Option.none)
    (hexp : d.expiration ≥ now)
    (hint : d.updateInterval ≤ 0 ∨ now ≤ d.updateInterval) :
    d.Do key now nowU op =
      some (⟨(Option.none, Option.none), d.newCall, DoAction.serveCache⟩,
            { d with calls := (key, d.newCall) :: d.calls }) := by
  have hdo : d.newCall.doCall now nowU op =
      ⟨(Option.none, Option.none), d.newCall, DoAction.serveCache⟩ := by
    simp only [Call.doCall, Dispatcher.newCall, sub_zero]
    rw [if_neg (not_lt.mpr hexp), if_neg ?_]
    intro hcon
    rcases hint with h | h
    · exact absurd hcon.1 (not_lt.mpr h)
    · exact absurd hcon.2 (not_lt.mpr h)
  rw [Do_absent d key now nowU op habsent, hdo]

theorem never_populated_fresh_serves_nil_witness :
    (NewDispatcher 200 0).Do "k" 100 100 (some 7, Option.none) =
      some (⟨(Option.none, Option.none), (NewDispatcher 200 0).newCall,
             DoAction.serveCache⟩,
            { NewDispatcher 200 0 with
                calls := [("k", (NewDispatcher 200 0).newCall)] }) :=
  never_populated_fresh_serves_nil (NewDispatcher 200 0) "k" 100 100
    (some 7, Option.none) (by decide) (by decide) (by decide)

end Callcache
